import Mathlib

set_option maxHeartbeats 2000000
set_option maxRecDepth 20000

/-!
Verification of the threadsserver media-extraction pipeline (main.go).

Go strings are modelled as `List Char` (the inputs of interest are ASCII, so
byte-level `strings.Contains` etc. coincide with character-level operations).
Each Go helper is translated into a Lean function of the same name; regular
expressions are embedded as an explicit syntax tree together with a
backtracking matcher whose result ordering follows Go's leftmost-first
match semantics.
-/

namespace ThreadsServer

/-- Go strings, modelled as lists of characters. -/
abbrev Str := List Char

/-- Conversion from Lean string literals. -/
def str (s : String) : Str := s.toList

/-- Go `strings.Contains s sub`. -/
def goContains : Str → Str → Bool
  | s, sub =>
    if sub.isPrefixOf s then true
    else
      match s with
      | [] => false
      | _ :: rest => goContains rest sub

/-- Go `strings.HasSuffix s suf`. -/
def goHasSuffix (s suf : Str) : Bool := suf.isSuffixOf s

/-- Go `strings.HasPrefix s pre`. -/
def goHasPrefix (s pre : Str) : Bool := pre.isPrefixOf s

theorem goContains_iff {s sub : Str} : goContains s sub = true ↔ sub <:+: s := by
  induction s with
  | nil =>
    rw [goContains]
    constructor
    · intro h
      split at h
      · next hp =>
        have : sub <+: ([] : Str) := by simpa using hp
        simpa using this.isInfix
      · simp at h
    · intro h
      have : sub = [] := List.sublist_nil.mp h.sublist
      simp [this]
  | cons c rest ih =>
    rw [goContains]
    constructor
    · intro h
      split at h
      · next hp =>
        exact (by simpa using hp : sub <+: c :: rest).isInfix
      · exact List.infix_cons (ih.mp h)
    · intro h
      rcases List.infix_cons_iff.mp h with hpre | hinf
      · simp [show sub.isPrefixOf (c :: rest) = true by simpa using hpre]
      · split
        · rfl
        · exact ih.mpr hinf

theorem goContains_of_occurs {s sub : Str} (h : sub <:+: s) : goContains s sub = true :=
  goContains_iff.mpr h

theorem goHasSuffix_iff {s suf : Str} : goHasSuffix s suf = true ↔ suf <:+ s := by
  simp [goHasSuffix]

theorem goContains_of_suffix {s suf : Str} (h : goHasSuffix s suf = true) :
    goContains s suf = true :=
  goContains_iff.mpr (goHasSuffix_iff.mp h).isInfix

/-! ### Media-reference validator and scorer (main.go `isValidVideoURL`,
`isValidImageURL`, `scoreImageURL`) -/

/-- The Facebook video CDN substrings checked by `isValidVideoURL`. -/
def facebookVideoCDNs : List Str :=
  [str "video.fbcdn.net", str "scontent-video", str "video.xx.fbcdn.net", str "video-"]

/-- The video keyword list for trusted-host URLs in `isValidVideoURL`. -/
def videoKeywords : List Str :=
  [str "video", str "playable", str "stream", str "media", str ".mp4", str ".webm", str ".mov"]

/-- Translation of `isValidVideoURL` (main.go lines 772-836). -/
def isValidVideoURL (url : Str) : Bool :=
  if url = [] then false
  else if goContains url (str ".jpg") || goContains url (str ".jpeg") ||
      goContains url (str ".png") || goContains url (str ".webp") ||
      goContains url (str ".gif") then false
  else if goContains url (str ".mp4") || goContains url (str ".webm") ||
      goContains url (str ".mov") || goContains url (str ".m4v") ||
      goContains url (str ".avi") || goContains url (str ".mkv") then true
  else if facebookVideoCDNs.any (fun cdn => goContains url cdn) then true
  else if goContains url (str "cdninstagram.com") then true
  else if (goContains url (str "fbcdn.net") || goContains url (str "scontent")) &&
      (goContains url (str "video") || goContains url (str ".mp4")) then true
  else if (goContains url (str "threads.net") || goContains url (str "fbcdn.net") ||
      goContains url (str "scontent")) &&
      videoKeywords.any (fun k => goContains url k) then true
  else false

/-- The UI-asset keyword exclusion list of `isValidImageURL`. -/
def excludePatterns : List Str :=
  [str "profile", str "avatar", str "logo", str "icon", str "badge", str "button",
   str "default", str "safe_image"]

/-- Translation of `isValidImageURL` (main.go lines 839-872). -/
def isValidImageURL (url : Str) : Bool :=
  if url = [] then false
  else if goContains url (str ".mp4") || goContains url (str ".webm") ||
      goContains url (str ".mov") || goContains url (str "video") then false
  else if !goContains url (str "cdninstagram.com") && !goContains url (str "fbcdn.net") &&
      !goContains url (str "scontent") then false
  else if !(goContains url (str ".jpg") || goContains url (str ".jpeg") ||
      goContains url (str ".png") || goContains url (str ".webp")) then false
  else if excludePatterns.any (fun p => goContains url p) then false
  else true

/-- Translation of `scoreImageURL` (main.go lines 875-897). -/
def scoreImageURL (url : Str) : Nat :=
  if !isValidImageURL url then 0
  else
    let base := 50
    let withDim :=
      if goContains url (str "1080x1080") then base + 50
      else if goContains url (str "720x720") then base + 30
      else if goContains url (str "640x640") then base + 20
      else base
    if goContains url (str "full_res") || goContains url (str "original") then withDim + 25
    else withDim

/-- The result structure of the pipeline (`ExtractResponse` in main.go); Go zero
values model the omitted fields. -/
structure ExtractResponse where
  mediaURL : Str
  mediaType : Str
  success : Bool
  videoID : Str := []
  title : Str := []
  duration : Int := 0
  videoUrls : List (Str × Str) := []
  metadata : List (Str × Str) := []
deriving Repr, DecidableEq

/-- The best-candidate fold of the image branch of `extractFromDOMElements`
(main.go lines 537-552): each `img` element's optional `src` attribute is
validated and scored, keeping the strictly best candidate. -/
def bestImageFold (srcs : List (Option Str)) : Str × Nat :=
  srcs.foldl
    (fun best osrc =>
      match osrc with
      | some url =>
        if url ≠ [] ∧ isValidImageURL url = true ∧ isValidVideoURL url = false then
          if scoreImageURL url > best.2 then (url, scoreImageURL url) else best
        else best
      | none => best)
    ([], 0)

/-- The image branch of `extractFromDOMElements` (main.go lines 536-562): return
the best-scoring candidate only when it clears the strict floor of 50. -/
def domImageResult (srcs : List (Option Str)) : Option ExtractResponse :=
  let best := bestImageFold srcs
  if best.1 ≠ [] ∧ best.2 > 50 then
    some { mediaURL := best.1, mediaType := str "image", success := true }
  else none

/-! ### Helper lemmas about the predicates -/

theorem isValidImageURL_ne_nil {url : Str} (h : isValidImageURL url = true) : url ≠ [] := by
  intro hnil
  rw [isValidImageURL] at h
  simp [hnil] at h

theorem isValidImageURL_hasExt {url : Str} (h : isValidImageURL url = true) :
    (goContains url (str ".jpg") || goContains url (str ".jpeg") ||
     goContains url (str ".png") || goContains url (str ".webp")) = true := by
  rw [isValidImageURL] at h
  by_cases hext : (goContains url (str ".jpg") || goContains url (str ".jpeg") ||
      goContains url (str ".png") || goContains url (str ".webp")) = true
  · exact hext
  · rw [Bool.not_eq_true] at hext
    simp only [hext] at h
    split at h
    · exact absurd h (by simp)
    · split at h
      · exact absurd h (by simp)
      · split at h
        · exact absurd h (by simp)
        · simp at h

theorem video_false_of_image {url : Str} (h : isValidImageURL url = true) :
    isValidVideoURL url = false := by
  have hext := isValidImageURL_hasExt h
  rw [isValidVideoURL]
  rcases Bool.or_eq_true_iff.mp hext with hor | hwebp
  · rcases Bool.or_eq_true_iff.mp hor with hor2 | hpng
    · rcases Bool.or_eq_true_iff.mp hor2 with hjpg | hjpeg
      · simp [hjpg]
      · simp [hjpeg]
    · simp [hpng]
  · simp [hwebp]

/-- C8 helper: acceptance as an image forces rejection as a video. -/
theorem video_image_never_both (url : Str) :
    (isValidVideoURL url && isValidImageURL url) = false := by
  cases himg : isValidImageURL url
  · simp
  · simp [video_false_of_image himg]

/-! ### Claim C8 -/

/-- C8: for every URL string, `isValidVideoURL` and `isValidImageURL` are never
both true: the image predicate requires one of .jpg/.jpeg/.png/.webp, and any
URL containing one of those is rejected outright by the video predicate. -/
theorem claim_C8_predicates_mutually_exclusive (url : Str) :
    (isValidVideoURL url && isValidImageURL url) = false ∧
    (isValidImageURL url = true →
      (goContains url (str ".jpg") || goContains url (str ".jpeg") ||
       goContains url (str ".png") || goContains url (str ".webp")) = true) ∧
    ((goContains url (str ".jpg") || goContains url (str ".jpeg") ||
      goContains url (str ".png") || goContains url (str ".webp")) = true →
      isValidVideoURL url = false) := by
  refine ⟨video_image_never_both url, fun h => isValidImageURL_hasExt h, fun hext => ?_⟩
  rw [isValidVideoURL]
  rcases Bool.or_eq_true_iff.mp hext with hor | hwebp
  · rcases Bool.or_eq_true_iff.mp hor with hor2 | hpng
    · rcases Bool.or_eq_true_iff.mp hor2 with hjpg | hjpeg
      · simp [hjpg]
      · simp [hjpeg]
    · simp [hpng]
  · simp [hwebp]

/-- Witness for C8 at a concrete URL with an image extension. -/
theorem claim_C8_witness :
    isValidVideoURL (str "https://scontent.x/a.jpg") = false :=
  (claim_C8_predicates_mutually_exclusive (str "https://scontent.x/a.jpg")).2.2 (by decide)

/-! ### Claim C9 -/

theorem scoreImageURL_bounds {url : Str} (hv : isValidImageURL url = true) :
    50 ≤ scoreImageURL url ∧ scoreImageURL url ≤ 125 := by
  rw [scoreImageURL, hv]
  simp only [Bool.not_true, Bool.false_eq_true, if_false]
  split_ifs <;> omega

/-- C9: `scoreImageURL` is 0 exactly on invalid image URLs and otherwise lies in
[50, 125]; a valid image URL with no recognized dimension token and no
full-res/original token scores exactly 50, which fails the DOM image strategy's
strict `> 50` acceptance floor. -/
theorem claim_C9_score_range (url : Str) :
    (scoreImageURL url = 0 ↔ isValidImageURL url = false) ∧
    (isValidImageURL url = true → 50 ≤ scoreImageURL url ∧ scoreImageURL url ≤ 125) ∧
    (isValidImageURL url = true →
      goContains url (str "1080x1080") = false →
      goContains url (str "720x720") = false →
      goContains url (str "640x640") = false →
      goContains url (str "full_res") = false →
      goContains url (str "original") = false →
      scoreImageURL url = 50 ∧ domImageResult [some url] = none) := by
  refine ⟨?_, fun hv => scoreImageURL_bounds hv, ?_⟩
  · constructor
    · intro h0
      by_cases hv : isValidImageURL url = true
      · have := (scoreImageURL_bounds hv).1
        omega
      · simpa using hv
    · intro hv
      rw [scoreImageURL, hv]
      rfl
  · intro hv h1080 h720 h640 hfull horig
    have hscore : scoreImageURL url = 50 := by
      rw [scoreImageURL, hv]
      simp [h1080, h720, h640, hfull, horig]
    refine ⟨hscore, ?_⟩
    have hne := isValidImageURL_ne_nil hv
    have hvid := video_false_of_image hv
    norm_num [domImageResult, bestImageFold, hscore, hv, hvid, hne]

/-- Witness for C9 at a concrete plain valid image URL. -/
theorem claim_C9_witness :
    scoreImageURL (str "https://scontent.x/photo.jpg") = 50 ∧
    domImageResult [some (str "https://scontent.x/photo.jpg")] = none :=
  (claim_C9_score_range (str "https://scontent.x/photo.jpg")).2.2 (by decide) (by decide)
    (by decide) (by decide) (by decide) (by decide)

/-! ### Claim C4 -/

/-- C4 counterexample: a URL ending in the video suffix ".m4v" that the image
predicate nevertheless accepts (".m4v" is not in `isValidImageURL`'s exclusion
list), refuting mutual exclusivity for the full six-suffix video list. -/
theorem claim_C4_counterexample :
    goHasSuffix (str "https://scontent.cdninstagram.com/a.jpg.m4v") (str ".m4v") = true ∧
    isValidImageURL (str "https://scontent.cdninstagram.com/a.jpg.m4v") = true := by
  constructor
  · decide
  · decide

/-- C4 amended: the image predicate rejects every URL ending in .mp4/.webm/.mov
(but not necessarily .m4v/.avi/.mkv), the video predicate rejects every URL
ending in an image suffix, and the two predicates are mutually exclusive. -/
theorem claim_C4_suffix_exclusivity (url : Str) :
    (∀ suf ∈ [str ".mp4", str ".webm", str ".mov"],
      goHasSuffix url suf = true → isValidImageURL url = false) ∧
    (∀ suf ∈ [str ".jpg", str ".jpeg", str ".png", str ".webp", str ".gif"],
      goHasSuffix url suf = true → isValidVideoURL url = false) ∧
    (isValidVideoURL url && isValidImageURL url) = false := by
  refine ⟨?_, ?_, video_image_never_both url⟩
  · intro suf hmem hsuf
    have hc := goContains_of_suffix hsuf
    rw [isValidImageURL]
    simp only [List.mem_cons, List.mem_singleton] at hmem
    rcases hmem with rfl | rfl | rfl | h
    · simp [hc]
    · simp [hc]
    · simp [hc]
    · simp at h
  · intro suf hmem hsuf
    have hc := goContains_of_suffix hsuf
    rw [isValidVideoURL]
    simp only [List.mem_cons, List.mem_singleton] at hmem
    rcases hmem with rfl | rfl | rfl | rfl | rfl | h
    · simp [hc]
    · simp [hc]
    · simp [hc]
    · simp [hc]
    · simp [hc]
    · simp at h

/-- Witness for C4 at concrete suffix-terminated URLs. -/
theorem claim_C4_witness :
    isValidImageURL (str "https://scontent.x/clip.mp4") = false ∧
    isValidVideoURL (str "https://scontent.x/pic.jpg") = false :=
  ⟨(claim_C4_suffix_exclusivity (str "https://scontent.x/clip.mp4")).1 (str ".mp4")
      (by decide) (by decide),
   (claim_C4_suffix_exclusivity (str "https://scontent.x/pic.jpg")).2.1 (str ".jpg")
      (by decide) (by decide)⟩

/-! ### Claim C7 -/

/-- If `w` occurs in `p ++ t ++ s` and no character of `w` occurs in the
nonempty token `t`, the occurrence avoids `t`, so `w` also occurs with any
replacement token `t'`. -/
theorem infix_append_replace {w t : Str} (t' p s : Str) (ht : t ≠ [])
    (hdisj : ∀ c ∈ w, c ∉ t) (h : w <:+: p ++ t ++ s) : w <:+: p ++ t' ++ s := by
  have hp : ∀ hsub : w <:+: p, w <:+: p ++ t' ++ s := fun hsub =>
    List.IsInfix.trans hsub ⟨[], t' ++ s, by simp⟩
  have hs : ∀ hsub : w <:+: s, w <:+: p ++ t' ++ s := fun hsub =>
    List.IsInfix.trans hsub ⟨p ++ t', [], by simp⟩
  obtain ⟨l, r, hlr⟩ := h
  rw [List.append_assoc l, List.append_assoc p] at hlr
  rcases List.append_eq_append_iff.mp hlr with ⟨a, hpa, har⟩ | ⟨c, hlc, hcr⟩
  · -- p = l ++ a and w ++ r = a ++ (t ++ s)
    rcases List.append_eq_append_iff.mp har with ⟨b, hab, hrb⟩ | ⟨b, hwb, htb⟩
    · -- a = w ++ b : the occurrence lies inside p
      exact hp ⟨l, b, by rw [hpa, hab, List.append_assoc]⟩
    · -- w = a ++ b and t ++ s = b ++ r
      rcases List.append_eq_append_iff.mp htb with ⟨d, hbd, hsd⟩ | ⟨d, htd, hrd⟩
      · -- b = t ++ d : t sits inside w, impossible since t is nonempty
        exfalso
        obtain ⟨x, tl, rfl⟩ : ∃ x tl, t = x :: tl := by
          cases t with
          | nil => exact absurd rfl ht
          | cons x tl => exact ⟨x, tl, rfl⟩
        exact hdisj x (by rw [hwb, hbd]; simp) (by simp)
      · -- t = b ++ d and r = d ++ s : b is a prefix of t inside w
        cases b with
        | nil =>
          exact hp ⟨l, [], by simp [hpa, hwb]⟩
        | cons x bs =>
          exact absurd (hdisj x (by rw [hwb]; simp) (by rw [htd]; simp)) (by simp)
  · -- l = p ++ c and t ++ s = c ++ (w ++ r)
    rcases List.append_eq_append_iff.mp hcr with ⟨d, hcd, hsd⟩ | ⟨d, htd, hwr⟩
    · -- c = t ++ d and s = d ++ (w ++ r) : the occurrence lies inside s
      exact hs ⟨d, r, by rw [hsd, List.append_assoc]⟩
    · -- t = c ++ d and w ++ r = d ++ s
      rcases List.append_eq_append_iff.mp hwr with ⟨e, hde, hre⟩ | ⟨e, hwe, hse⟩
      · -- d = w ++ e : w sits inside t
        cases w with
        | nil => exact ⟨[], p ++ t' ++ s, by simp⟩
        | cons x ws =>
          exact absurd (hdisj x (by simp) (by rw [htd, hde]; simp)) (by simp)
      · -- w = d ++ e and s = e ++ r
        cases d with
        | nil =>
          exact hs ⟨[], r, by simp [hse, hwe]⟩
        | cons x ds =>
          exact absurd (hdisj x (by rw [hwe]; simp) (by rw [htd]; simp)) (by simp)

theorem goContains_token_left (p s t : Str) : goContains (p ++ t ++ s) t = true :=
  goContains_of_occurs ⟨p, s, rfl⟩

/-- Closed form of `scoreImageURL` on valid image URLs. -/
theorem scoreImageURL_formula {url : Str} (hv : isValidImageURL url = true) :
    scoreImageURL url =
      (if goContains url (str "1080x1080") then 100
       else if goContains url (str "720x720") then 80
       else if goContains url (str "640x640") then 70
       else 50) +
      (if goContains url (str "full_res") || goContains url (str "original") then 25
       else 0) := by
  rw [scoreImageURL, hv]
  simp only [Bool.not_true, Bool.false_eq_true, if_false]
  split_ifs <;> omega

/-- C7 counterexample: an otherwise-identical pair of "1080x1080"/"640x640"
URLs that are not valid image candidates; both score 0, so the "1080x1080"
variant does not score strictly higher. -/
theorem claim_C7_counterexample :
    str "https://example.com/a_1080x1080.jpg" =
      str "https://example.com/a_" ++ str "1080x1080" ++ str ".jpg" ∧
    str "https://example.com/a_640x640.jpg" =
      str "https://example.com/a_" ++ str "640x640" ++ str ".jpg" ∧
    ¬(scoreImageURL (str "https://example.com/a_1080x1080.jpg") >
      scoreImageURL (str "https://example.com/a_640x640.jpg")) := by
  refine ⟨by decide, by decide, ?_⟩
  decide

/-- C7 amended: for identical-except-token pairs in which both variants are
valid image candidates and the "640x640" variant does not itself contain
"1080x1080", the "1080x1080" variant scores strictly higher. -/
theorem claim_C7_score_monotonic (p s : Str)
    (hv1 : isValidImageURL (p ++ str "1080x1080" ++ s) = true)
    (hv2 : isValidImageURL (p ++ str "640x640" ++ s) = true)
    (h1080 : goContains (p ++ str "640x640" ++ s) (str "1080x1080") = false) :
    scoreImageURL (p ++ str "640x640" ++ s) <
      scoreImageURL (p ++ str "1080x1080" ++ s) := by
  have c1 : goContains (p ++ str "1080x1080" ++ s) (str "1080x1080") = true :=
    goContains_token_left p s _
  rw [scoreImageURL_formula hv1, scoreImageURL_formula hv2, c1, h1080]
  simp only [Bool.false_eq_true, if_false, if_true]
  by_cases hb2 : (goContains (p ++ str "640x640" ++ s) (str "full_res") ||
      goContains (p ++ str "640x640" ++ s) (str "original")) = true
  · have hb1 : (goContains (p ++ str "1080x1080" ++ s) (str "full_res") ||
        goContains (p ++ str "1080x1080" ++ s) (str "original")) = true := by
      rcases Bool.or_eq_true_iff.mp hb2 with hf | ho
      · have hinf := infix_append_replace (str "1080x1080") p s (by decide)
          (by decide) (goContains_iff.mp hf)
        rw [goContains_of_occurs hinf]
        simp
      · have hinf := infix_append_replace (str "1080x1080") p s (by decide)
          (by decide) (goContains_iff.mp ho)
        rw [goContains_of_occurs hinf]
        simp
    rw [hb2, hb1]
    split_ifs <;> omega
  · rw [Bool.not_eq_true] at hb2
    rw [hb2]
    simp only [Bool.false_eq_true, if_false]
    split_ifs <;> omega

/-- Witness for C7 at a concrete valid pair. -/
theorem claim_C7_witness :
    scoreImageURL (str "https://scontent.x/a_640x640.jpg") <
      scoreImageURL (str "https://scontent.x/a_1080x1080.jpg") :=
  claim_C7_score_monotonic (str "https://scontent.x/a_") (str ".jpg")
    (by decide) (by decide) (by decide)

/-! ### Regular-expression engine

The Go code builds its regular expressions from literals, character classes,
greedy/lazy quantifiers and capture groups.  We embed each pattern as an
explicit syntax tree and enumerate matches in backtracking priority order,
which coincides with Go's (RE2's) documented leftmost-first match semantics.
Every starred subexpression appearing in main.go is a single character class,
so star iterations always consume input; the engine enforces this progress
condition, which also bounds the required fuel by the input length. -/

/-- Regular-expression syntax. `starG`/`optG` are greedy, `starL` is lazy,
`group n` is capture group number `n`. -/
inductive RE where
  | lit : Str → RE
  | cls : (Char → Bool) → RE
  | seq : RE → RE → RE
  | alt : RE → RE → RE
  | starG : RE → RE
  | starL : RE → RE
  | optG : RE → RE
  | group : Nat → RE → RE

/-- Capture environment: group number to captured substring, most recent
first. -/
abbrev Caps := List (Nat × Str)

/-- One level of the matcher, parameterized by the continuation `next` used
for star re-iteration (the matcher at one unit less fuel). Structural in the
regular expression, so that the kernel can evaluate it. -/
def reMatchesF (next : RE → Str → List (Str × Caps)) : RE → Str → List (Str × Caps)
  | .lit l, s => if l.isPrefixOf s then [(s.drop l.length, [])] else []
  | .cls f, s =>
    match s with
    | [] => []
    | c :: rest => if f c then [(rest, [])] else []
  | .seq a b, s =>
    (reMatchesF next a s).flatMap
      (fun p => (reMatchesF next b p.1).map (fun q => (q.1, q.2 ++ p.2)))
  | .alt a b, s => reMatchesF next a s ++ reMatchesF next b s
  | .starG a, s =>
    ((reMatchesF next a s).flatMap
      (fun p =>
        if p.1.length < s.length then
          (next (.starG a) p.1).map (fun q => (q.1, q.2 ++ p.2))
        else []))
    ++ [(s, [])]
  | .starL a, s =>
    (s, ([] : Caps)) ::
    (reMatchesF next a s).flatMap
      (fun p =>
        if p.1.length < s.length then
          (next (.starL a) p.1).map (fun q => (q.1, q.2 ++ p.2))
        else [])
  | .optG a, s => reMatchesF next a s ++ [(s, [])]
  | .group n a, s =>
    (reMatchesF next a s).map
      (fun p => (p.1, (n, s.take (s.length - p.1.length)) :: p.2))

/-- All ways to match a prefix of `s` against `re`, in backtracking priority
order; each result is the remaining suffix together with the captures.
`fuel` bounds star unfolding: with `fuel > s.length` the enumeration is
complete, because every star iteration must consume input. -/
def reMatches : Nat → RE → Str → List (Str × Caps)
  | 0, _, _ => []
  | Nat.succ fuel, re, s => reMatchesF (reMatches fuel) re s

/-- Language semantics of `RE` (matchability; captures are irrelevant). -/
def Lang : RE → Str → Prop
  | .lit l, s => s = l
  | .cls f, s => ∃ c, s = [c] ∧ f c = true
  | .seq a b, s => ∃ u v, s = u ++ v ∧ Lang a u ∧ Lang b v
  | .alt a b, s => Lang a s ∨ Lang b s
  | .starG a, s => ∃ parts : List Str, s = parts.flatten ∧ ∀ u ∈ parts, u ≠ [] ∧ Lang a u
  | .starL a, s => ∃ parts : List Str, s = parts.flatten ∧ ∀ u ∈ parts, u ≠ [] ∧ Lang a u
  | .optG a, s => s = [] ∨ Lang a s
  | .group _ a, s => Lang a s

theorem reMatches_sound (fuel : Nat) : ∀ (re : RE) (s rem : Str) (caps : Caps),
    (rem, caps) ∈ reMatches fuel re s → ∃ u, s = u ++ rem ∧ Lang re u := by
  induction fuel with
  | zero =>
    intro re s rem caps h
    simp [reMatches] at h
  | succ fuel ihf =>
    intro re
    induction re with
    | lit l =>
      intro s rem caps h
      rw [reMatches, reMatchesF] at h
      split at h
      · next hp =>
        obtain ⟨t, ht⟩ : l <+: s := by simpa using hp
        simp only [List.mem_singleton, Prod.mk.injEq] at h
        exact ⟨l, by rw [h.1, ← ht, List.drop_left], rfl⟩
      · simp at h
    | cls f =>
      intro s rem caps h
      match s with
      | [] =>
        rw [reMatches, reMatchesF] at h
        simp at h
      | c :: rest =>
        rw [reMatches, reMatchesF] at h
        split at h
        · next hf =>
          simp only [List.mem_singleton, Prod.mk.injEq] at h
          exact ⟨[c], by simp [h.1], ⟨c, rfl, hf⟩⟩
        · simp at h
    | seq a b iha ihb =>
      intro s rem caps h
      rw [reMatches, reMatchesF] at h
      simp only [List.mem_flatMap, List.mem_map, Prod.mk.injEq] at h
      obtain ⟨p, hp, q, hq, hq1, hq2⟩ := h
      subst hq1
      obtain ⟨u1, hs1, hl1⟩ := iha s p.1 p.2 hp
      obtain ⟨u2, hs2, hl2⟩ := ihb p.1 q.1 q.2 hq
      exact ⟨u1 ++ u2, by rw [hs1, hs2, List.append_assoc], ⟨u1, u2, rfl, hl1, hl2⟩⟩
    | alt a b iha ihb =>
      intro s rem caps h
      rw [reMatches, reMatchesF] at h
      rcases List.mem_append.mp h with h | h
      · obtain ⟨u, hs, hl⟩ := iha s rem caps h
        exact ⟨u, hs, Or.inl hl⟩
      · obtain ⟨u, hs, hl⟩ := ihb s rem caps h
        exact ⟨u, hs, Or.inr hl⟩
    | starG a iha =>
      intro s rem caps h
      rw [reMatches, reMatchesF] at h
      rcases List.mem_append.mp h with h | h
      · simp only [List.mem_flatMap] at h
        obtain ⟨p, hp, hmem⟩ := h
        split at hmem
        · next hlt =>
          simp only [List.mem_map, Prod.mk.injEq] at hmem
          obtain ⟨q, hq, hq1, hq2⟩ := hmem
          subst hq1
          obtain ⟨u1, hs1, hl1⟩ := iha s p.1 p.2 hp
          obtain ⟨u2, hs2, ⟨parts, hparts, hall⟩⟩ := ihf (.starG a) p.1 q.1 q.2 hq
          have hu1 : u1 ≠ [] := by
            intro hnil
            rw [hnil, List.nil_append] at hs1
            rw [← hs1] at hlt
            omega
          refine ⟨u1 ++ u2, by rw [hs1, hs2, List.append_assoc],
            ⟨u1 :: parts, by simp [hparts], ?_⟩⟩
          intro u hu
          rcases List.mem_cons.mp hu with rfl | hu
          · exact ⟨hu1, hl1⟩
          · exact hall u hu
        · simp at hmem
      · simp only [List.mem_singleton, Prod.mk.injEq] at h
        exact ⟨[], by simp [h.1], ⟨[], rfl, by simp⟩⟩
    | starL a iha =>
      intro s rem caps h
      rw [reMatches, reMatchesF] at h
      rcases List.mem_cons.mp h with h | h
      · rw [Prod.mk.injEq] at h
        exact ⟨[], by simp [h.1], ⟨[], rfl, by simp⟩⟩
      · simp only [List.mem_flatMap] at h
        obtain ⟨p, hp, hmem⟩ := h
        split at hmem
        · next hlt =>
          simp only [List.mem_map, Prod.mk.injEq] at hmem
          obtain ⟨q, hq, hq1, hq2⟩ := hmem
          subst hq1
          obtain ⟨u1, hs1, hl1⟩ := iha s p.1 p.2 hp
          obtain ⟨u2, hs2, ⟨parts, hparts, hall⟩⟩ := ihf (.starL a) p.1 q.1 q.2 hq
          have hu1 : u1 ≠ [] := by
            intro hnil
            rw [hnil, List.nil_append] at hs1
            rw [← hs1] at hlt
            omega
          refine ⟨u1 ++ u2, by rw [hs1, hs2, List.append_assoc],
            ⟨u1 :: parts, by simp [hparts], ?_⟩⟩
          intro u hu
          rcases List.mem_cons.mp hu with rfl | hu
          · exact ⟨hu1, hl1⟩
          · exact hall u hu
        · simp at hmem
    | optG a iha =>
      intro s rem caps h
      rw [reMatches, reMatchesF] at h
      rcases List.mem_append.mp h with h | h
      · obtain ⟨u, hs, hl⟩ := iha s rem caps h
        exact ⟨u, hs, Or.inr hl⟩
      · simp only [List.mem_singleton, Prod.mk.injEq] at h
        exact ⟨[], by simp [h.1], Or.inl rfl⟩
    | group n a iha =>
      intro s rem caps h
      rw [reMatches, reMatchesF] at h
      simp only [List.mem_map, Prod.mk.injEq] at h
      obtain ⟨p, hp, hp1, hp2⟩ := h
      subst hp1
      obtain ⟨u, hs, hl⟩ := iha s p.1 p.2 hp
      exact ⟨u, hs, hl⟩

theorem reMatches_complete (fuel : Nat) : ∀ (re : RE) (u rem : Str), Lang re u →
    u.length < fuel → ∃ caps, (rem, caps) ∈ reMatches fuel re (u ++ rem) := by
  induction fuel with
  | zero =>
    intro re u rem _ hlen
    omega
  | succ fuel ihf =>
    intro re
    induction re with
    | lit l =>
      intro u rem hl _
      rw [Lang] at hl
      subst hl
      refine ⟨[], ?_⟩
      rw [reMatches, reMatchesF]
      rw [if_pos (by simp), List.drop_left]
      simp
    | cls f =>
      intro u rem hl _
      obtain ⟨c, rfl, hf⟩ := hl
      refine ⟨[], ?_⟩
      rw [List.cons_append, reMatches]
      simp [reMatchesF, hf]
    | seq a b iha ihb =>
      intro u rem hl hlen
      obtain ⟨u1, u2, rfl, hl1, hl2⟩ := hl
      rw [List.length_append] at hlen
      obtain ⟨caps1, h1⟩ := iha u1 (u2 ++ rem) hl1 (by omega)
      obtain ⟨caps2, h2⟩ := ihb u2 rem hl2 (by omega)
      refine ⟨caps2 ++ caps1, ?_⟩
      rw [reMatches, reMatchesF]
      simp only [List.mem_flatMap, List.mem_map]
      exact ⟨(u2 ++ rem, caps1), by rw [List.append_assoc]; exact h1,
        ⟨(rem, caps2), h2, rfl⟩⟩
    | alt a b iha ihb =>
      intro u rem hl hlen
      rw [reMatches, reMatchesF]
      rcases hl with hl | hl
      · obtain ⟨caps, h⟩ := iha u rem hl hlen
        exact ⟨caps, List.mem_append.mpr (Or.inl h)⟩
      · obtain ⟨caps, h⟩ := ihb u rem hl hlen
        exact ⟨caps, List.mem_append.mpr (Or.inr h)⟩
    | starG a iha =>
      intro u rem hl hlen
      obtain ⟨parts, rfl, hparts⟩ := hl
      induction parts generalizing rem with
      | nil =>
        refine ⟨[], ?_⟩
        rw [reMatches, reMatchesF]
        simp
      | cons q qs ihq =>
        have hq := hparts q (by simp)
        have hqs : ∀ v ∈ qs, v ≠ [] ∧ Lang a v := fun v hv => hparts v (by simp [hv])
        have hqne : q ≠ [] := hq.1
        rw [List.flatten_cons, List.length_append] at hlen
        have hqlen : 0 < q.length := List.length_pos.mpr hqne
        obtain ⟨caps1, h1⟩ := iha q (qs.flatten ++ rem) hq.2 (by omega)
        obtain ⟨caps2, h2⟩ := ihf (.starG a) qs.flatten rem ⟨qs, rfl, hqs⟩ (by omega)
        refine ⟨caps2 ++ caps1, ?_⟩
        rw [reMatches, reMatchesF]
        refine List.mem_append.mpr (Or.inl ?_)
        simp only [List.mem_flatMap]
        refine ⟨(qs.flatten ++ rem, caps1), by rw [List.flatten_cons, List.append_assoc]; exact h1, ?_⟩
        rw [if_pos (by simp [List.flatten_cons]; omega)]
        simp only [List.mem_map]
        exact ⟨(rem, caps2), h2, rfl⟩
    | starL a iha =>
      intro u rem hl hlen
      obtain ⟨parts, rfl, hparts⟩ := hl
      induction parts generalizing rem with
      | nil =>
        refine ⟨[], ?_⟩
        rw [reMatches, reMatchesF]
        simp
      | cons q qs ihq =>
        have hq := hparts q (by simp)
        have hqs : ∀ v ∈ qs, v ≠ [] ∧ Lang a v := fun v hv => hparts v (by simp [hv])
        have hqne : q ≠ [] := hq.1
        rw [List.flatten_cons, List.length_append] at hlen
        have hqlen : 0 < q.length := List.length_pos.mpr hqne
        obtain ⟨caps1, h1⟩ := iha q (qs.flatten ++ rem) hq.2 (by omega)
        obtain ⟨caps2, h2⟩ := ihf (.starL a) qs.flatten rem ⟨qs, rfl, hqs⟩ (by omega)
        refine ⟨caps2 ++ caps1, ?_⟩
        rw [reMatches, reMatchesF]
        refine List.mem_cons.mpr (Or.inr ?_)
        simp only [List.mem_flatMap]
        refine ⟨(qs.flatten ++ rem, caps1), by rw [List.flatten_cons, List.append_assoc]; exact h1, ?_⟩
        rw [if_pos (by simp [List.flatten_cons]; omega)]
        simp only [List.mem_map]
        exact ⟨(rem, caps2), h2, rfl⟩
    | optG a iha =>
      intro u rem hl hlen
      rw [reMatches, reMatchesF]
      rcases hl with rfl | hl
      · refine ⟨[], List.mem_append.mpr (Or.inr ?_)⟩
        simp
      · obtain ⟨caps, h⟩ := iha u rem hl hlen
        exact ⟨caps, List.mem_append.mpr (Or.inl h)⟩
    | group n a iha =>
      intro u rem hl hlen
      rw [Lang] at hl
      obtain ⟨caps, h⟩ := iha u rem hl hlen
      rw [reMatches, reMatchesF]
      simp only [List.mem_map]
      exact ⟨(n, (u ++ rem).take ((u ++ rem).length - rem.length)) :: caps,
        (rem, caps), h, rfl⟩

/-! ### Search primitives (Go `MatchString`, `FindStringSubmatch`,
`FindAllStringSubmatch`) -/

/-- `MatchString` for a pattern that begins with the anchor `^`: does some
prefix of `s` match? -/
def matchStart (re : RE) (s : Str) : Bool := !(reMatches (s.length + 1) re s).isEmpty

theorem matchStart_iff {re : RE} {s : Str} :
    matchStart re s = true ↔ ∃ u rem, s = u ++ rem ∧ Lang re u := by
  rw [matchStart]
  constructor
  · intro h
    rw [Bool.not_eq_true'] at h
    have hne : reMatches (s.length + 1) re s ≠ [] := by
      intro hnil
      rw [hnil] at h
      simp at h
    obtain ⟨⟨rem, caps⟩, hmem⟩ := List.exists_mem_of_ne_nil _ hne
    obtain ⟨u, hs, hl⟩ := reMatches_sound _ re s rem caps hmem
    exact ⟨u, rem, hs, hl⟩
  · rintro ⟨u, rem, rfl, hl⟩
    have hlen : u.length < (u ++ rem).length + 1 := by
      rw [List.length_append]; omega
    obtain ⟨caps, h⟩ := reMatches_complete _ re u rem hl hlen
    have hne : reMatches ((u ++ rem).length + 1) re (u ++ rem) ≠ [] := by
      intro hnil
      rw [hnil] at h
      simp at h
    rw [Bool.not_eq_true']
    rw [List.isEmpty_eq_false]
    exact hne

/-- Leftmost search: try a match at every start position, earliest first;
returns (matched part, remaining suffix after the match, captures).
This is Go's leftmost-first search semantics. -/
def searchFrom (re : RE) : Str → Option (Str × Str × Caps)
  | [] =>
    match (reMatches 1 re []).head? with
    | some p => some ([], p.1, p.2)
    | none => none
  | c :: rest =>
    match (reMatches ((c :: rest).length + 1) re (c :: rest)).head? with
    | some p => some ((c :: rest).take ((c :: rest).length - p.1.length), p.1, p.2)
    | none => searchFrom re rest

/-- `FindStringSubmatch`, group 1: the first (leftmost, highest-priority)
match's capture group 1, or `none` when the pattern does not match or has no
groups (Go's `len(matches) > 1` check fails in either case). -/
def capLookup (n : Nat) : Caps → Option Str
  | [] => none
  | (m, v) :: rest => if m = n then some v else capLookup n rest

/-- First capture of group 1 of the leftmost match. -/
def findGroup1 (re : RE) (s : Str) : Option Str :=
  match searchFrom re s with
  | some (_, _, caps) => capLookup 1 caps
  | none => none

/-- Whether the pattern matches anywhere (unanchored `MatchString`). -/
def reMatchString (re : RE) (s : Str) : Bool := (searchFrom re s).isSome

/-- `FindAllStringSubmatch`: successive non-overlapping leftmost matches,
continuing after each match (advancing one character after an empty match,
as Go does). The fuel is bounded by the string length. -/
def findAllFuel : Nat → RE → Str → List (Str × Caps)
  | 0, _, _ => []
  | Nat.succ fuel, re, s =>
    match searchFrom re s with
    | none => []
    | some (m, rem, caps) =>
      (m, caps) ::
        (if m = [] then
          match rem with
          | [] => []
          | _ :: r => findAllFuel fuel re r
        else findAllFuel fuel re rem)

/-- All matches with captures, in order. -/
def findAll (re : RE) (s : Str) : List (Str × Caps) := findAllFuel (s.length + 1) re s

/-! ### Character classes (Go/RE2 semantics, ASCII classes) -/

/-- Go `\w` = `[0-9A-Za-z_]`. -/
def wordChar (c : Char) : Bool := c.isAlphanum || c = '_'

/-- Go `\d` = `[0-9]`. -/
def digitChar (c : Char) : Bool := c.isDigit

/-- Go `\s` = `[\t\n\f\r ]`. -/
def spaceChar (c : Char) : Bool :=
  c = ' ' || c = '\t' || c = '\n' || c = '\x0c' || c = '\r'

/-- `[^"]` (negated classes match newline in RE2). -/
def notQuote (c : Char) : Bool := !(c = '"')

/-- `[^"'\s]`. -/
def notQuoteSpace (c : Char) : Bool := !(c = '"' || c = '\'' || spaceChar c)

/-- `.` (any character but newline). -/
def dotChar (c : Char) : Bool := !(c = '\n')

/-- `[^<]`. -/
def notLt (c : Char) : Bool := !(c = '<')

/-- `[^}]`. -/
def notCloseBrace (c : Char) : Bool := !(c = '\x7d')

/-- `r+` as `r r*`. -/
def rePlus (r : RE) : RE := .seq r (.starG r)

/-- Single-character literal class. -/
def reChar (c : Char) : RE := .cls (fun x => x = c)

/-! ### The URL-path pattern of the normalizer -/

/-- `[\w.-]`. -/
def handleChar (c : Char) : Bool := wordChar c || c = '.' || c = '-'

/-- `[\w-]`. -/
def postIdChar (c : Char) : Bool := wordChar c || c = '-'

/-- `^/@[\w.-]+/post/[\w-]+/?` (main.go line 140); the leading `^` is the
start anchor, realized by `matchStart`. -/
def threadsPattern : RE :=
  .seq (.lit (str "/@"))
    (.seq (rePlus (.cls handleChar))
      (.seq (.lit (str "/post/"))
        (.seq (rePlus (.cls postIdChar)) (.optG (reChar '/')))))

/-! ### String helpers used by the extraction code -/

/-- Go `strings.ReplaceAll`, fuelled (each step consumes at least one
character, so `s.length` fuel suffices). -/
def goReplaceAllFuel : Nat → Str → Str → Str → Str
  | 0, s, _, _ => s
  | Nat.succ fuel, s, old, new =>
    match s with
    | [] => []
    | c :: rest =>
      if old ≠ [] ∧ old.isPrefixOf (c :: rest) then
        new ++ goReplaceAllFuel fuel ((c :: rest).drop old.length) old new
      else c :: goReplaceAllFuel fuel rest old new

/-- Go `strings.ReplaceAll s old new` (non-overlapping, left to right). -/
def goReplaceAll (s old new : Str) : Str := goReplaceAllFuel s.length s old new

/-- The URL unescaping applied to every captured URL (main.go lines 622-623,
730-731 etc.): decode the JSON escapes for ampersand and forward slash. -/
def unescapeURL (u : Str) : Str :=
  goReplaceAll (goReplaceAll u (str "\\u0026") (str "&")) (str "\\/") (str "/")

/-- Whitespace as trimmed by Go `strings.TrimSpace` (ASCII part). -/
def goIsSpace (c : Char) : Bool :=
  c = ' ' || c = '\t' || c = '\n' || c = '\x0b' || c = '\x0c' || c = '\r'

/-- Go `strings.TrimSpace` (ASCII whitespace). -/
def goTrimSpace (s : Str) : Str :=
  ((s.dropWhile goIsSpace).reverse.dropWhile goIsSpace).reverse

/-- Decimal value of a digit string. -/
def digitsVal (s : Str) : Nat :=
  s.foldl (fun acc c => acc * 10 + (c.toNat - '0'.toNat)) 0

/-- Go `strconv.ParseInt(s, 10, 64)` on the digit-only strings produced by
`(\d+)` captures: fails on empty/non-digit input and on int64 overflow. -/
def goParseInt64 (s : Str) : Option Nat :=
  if s ≠ [] ∧ s.all Char.isDigit then
    if digitsVal s ≤ 9223372036854775807 then some (digitsVal s) else none
  else none

/-- Decimal representation of a natural number. -/
def natToStr (n : Nat) : Str := Nat.toDigits 10 n

/-- Lookup in an association-list model of a Go `map[string]string`. -/
def lookupStr (k : Str) : List (Str × Str) → Option Str
  | [] => none
  | (k', v) :: rest => if k' = k then some v else lookupStr k rest

/-! ### URL parsing (model of Go `net/url.Parse` for hierarchical
`scheme://host/path?query#fragment` URLs)

Go's `url.Parse` strips the fragment, splits scheme and authority, ends the
authority at the first `/` or `?`, splits the query at the first `?`, and
percent-decodes the path (failing on malformed escapes). The model covers
exactly these URLs; `url.Parse` accepts some other forms (e.g. scheme-less
references) that the extractor's normalizer would reject anyway. The host's
case is preserved, as in Go. -/

/-- Split at the first occurrence of character `ch`; the second component is
`none` when `ch` does not occur. -/
def splitAtChar (ch : Char) : Str → Str × Option Str
  | [] => ([], none)
  | c :: rest =>
    if c = ch then ([], some rest)
    else
      let p := splitAtChar ch rest
      (c :: p.1, p.2)

/-- Split at the first occurrence of the substring `sub` (before, after). -/
def splitAtSub (sub : Str) : Str → Option (Str × Str)
  | [] => if sub = [] then some ([], []) else none
  | c :: rest =>
    if sub.isPrefixOf (c :: rest) then some ([], (c :: rest).drop sub.length)
    else
      match splitAtSub sub rest with
      | some p => some (c :: p.1, p.2)
      | none => none

/-- Hexadecimal digit value. -/
def hexVal (c : Char) : Option Nat :=
  if c.isDigit then some (c.toNat - '0'.toNat)
  else if 'a' ≤ c ∧ c ≤ 'f' then some (c.toNat - 'a'.toNat + 10)
  else if 'A' ≤ c ∧ c ≤ 'F' then some (c.toNat - 'A'.toNat + 10)
  else none

/-- Percent-decoding of a URL path, failing on malformed escapes, as Go's
`url.Parse` does for the `Path` field. -/
def percentDecode : Str → Option Str
  | [] => some []
  | c :: rest =>
    if c = '%' then
      match rest with
      | h1 :: h2 :: rest2 =>
        match hexVal h1, hexVal h2 with
        | some v1, some v2 =>
          match percentDecode rest2 with
          | some d => some (Char.ofNat (v1 * 16 + v2) :: d)
          | none => none
        | _, _ => none
      | _ => none
    else
      match percentDecode rest with
      | some d => some (c :: d)
      | none => none

/-- A character ending the authority part (host). -/
def hostEnd (c : Char) : Bool := c = '/' || c = '?'

/-- Parsed URL: scheme, host (case preserved), percent-decoded path, raw
query. -/
structure URLParts where
  scheme : Str
  host : Str
  path : Str
  query : Str
deriving Repr, DecidableEq

/-- Model of Go `url.Parse` (see section comment). -/
def parseURL (s : Str) : Option URLParts :=
  let body := (splitAtChar '#' s).1
  match splitAtSub (str "://") body with
  | none => none
  | some (scheme, rest) =>
    if scheme = [] then none
    else
      let host := rest.takeWhile (fun c => !hostEnd c)
      let pathq := rest.dropWhile (fun c => !hostEnd c)
      let p := splitAtChar '?' pathq
      match percentDecode p.1 with
      | none => none
      | some path =>
        some { scheme := scheme, host := host, path := path,
               query := match p.2 with | some q => q | none => [] }

/-! ### The URL normalizer (main.go `normalizeURL`, lines 118-149) -/

/-- The error taxonomy of the normalizer. -/
inductive NormErr where
  | invalidURL
  | untrustedDomain
  | malformedPostPath
deriving Repr, DecidableEq

/-- The domain allow-list (main.go line 126). -/
def validDomains : List Str :=
  [str "threads.com", str "www.threads.com", str "m.threads.com",
   str "threads.net", str "www.threads.net", str "m.threads.net"]

/-- The host and path checks plus canonicalization of `normalizeURL`,
acting on an already-parsed URL. -/
def normalizeURLparts (u : URLParts) : Except NormErr Str :=
  if validDomains.any (fun d => goContains u.host d) = false then
    .error .untrustedDomain
  else if matchStart threadsPattern u.path = false then
    .error .malformedPostPath
  else
    .ok (str "https://www.threads.net" ++ u.path)

instance {ε α : Type} [DecidableEq ε] [DecidableEq α] : DecidableEq (Except ε α) := fun x y =>
  match x, y with
  | .ok a, .ok b =>
    if h : a = b then .isTrue (by rw [h]) else .isFalse (by intro hc; cases hc; exact h rfl)
  | .error a, .error b =>
    if h : a = b then .isTrue (by rw [h]) else .isFalse (by intro hc; cases hc; exact h rfl)
  | .ok _, .error _ => .isFalse (by intro hc; cases hc)
  | .error _, .ok _ => .isFalse (by intro hc; cases hc)

/-- Translation of `normalizeURL` (main.go lines 118-149). -/
def normalizeURL (s : Str) : Except NormErr Str :=
  match parseURL s with
  | none => .error .invalidURL
  | some u => normalizeURLparts u

/-! ### Characterization of the path pattern -/

theorem lang_starG_cls {f : Char → Bool} {u : Str} :
    Lang (.starG (.cls f)) u ↔ ∀ c ∈ u, f c = true := by
  constructor
  · rintro ⟨parts, rfl, hall⟩ c hc
    rw [List.mem_flatten] at hc
    obtain ⟨l, hl, hcl⟩ := hc
    obtain ⟨d, rfl, hfd⟩ := (hall l hl).2
    rw [List.mem_singleton] at hcl
    rw [hcl]
    exact hfd
  · intro hall
    induction u with
    | nil => exact ⟨[], rfl, by simp⟩
    | cons c rest ih =>
      obtain ⟨parts, hflat, hp⟩ := ih (fun x hx => hall x (by simp [hx]))
      refine ⟨[c] :: parts, by simp [hflat], ?_⟩
      intro v hv
      rcases List.mem_cons.mp hv with rfl | hv
      · exact ⟨by simp, ⟨c, rfl, hall c (by simp)⟩⟩
      · exact hp v hv

theorem lang_plus_cls {f : Char → Bool} {u : Str} :
    Lang (rePlus (.cls f)) u ↔ u ≠ [] ∧ ∀ c ∈ u, f c = true := by
  rw [rePlus]
  constructor
  · rintro ⟨u1, u2, rfl, ⟨c, rfl, hfc⟩, hstar⟩
    have h2 := lang_starG_cls.mp hstar
    refine ⟨by simp, ?_⟩
    intro d hd
    rcases List.mem_append.mp hd with hd | hd
    · rw [List.mem_singleton] at hd
      rw [hd]
      exact hfc
    · exact h2 d hd
  · rintro ⟨hne, hall⟩
    match u, hne with
    | c :: rest, _ =>
      exact ⟨[c], rest, rfl, ⟨c, rfl, hall c (by simp)⟩,
        lang_starG_cls.mpr (fun d hd => hall d (by simp [hd]))⟩

/-- The path check of the normalizer, characterized: the anchored pattern
`^/@[\w.-]+/post/[\w-]+/?` matches exactly the paths that begin with
`/@handle/post/id` — anything (not just a trailing slash) may follow. -/
theorem matchStart_threadsPattern {path : Str} :
    matchStart threadsPattern path = true ↔
      ∃ h g rest, path = str "/@" ++ h ++ str "/post/" ++ g ++ rest ∧
        h ≠ [] ∧ (∀ c ∈ h, handleChar c = true) ∧
        g ≠ [] ∧ (∀ c ∈ g, postIdChar c = true) := by
  rw [matchStart_iff]
  constructor
  · rintro ⟨u, rem, rfl, hl⟩
    rw [threadsPattern] at hl
    obtain ⟨u1, v1, rfl, hl1, hl2⟩ := hl
    rw [Lang] at hl1
    subst hl1
    obtain ⟨h, v2, rfl, hh, hl3⟩ := hl2
    obtain ⟨u3, v3, rfl, hl4, hl5⟩ := hl3
    rw [Lang] at hl4
    subst hl4
    obtain ⟨g, t, rfl, hg, _⟩ := hl5
    obtain ⟨hne, hall⟩ := lang_plus_cls.mp hh
    obtain ⟨gne, gall⟩ := lang_plus_cls.mp hg
    exact ⟨h, g, t ++ rem, by simp [List.append_assoc], hne, hall, gne, gall⟩
  · rintro ⟨h, g, rest, rfl, hne, hall, gne, gall⟩
    refine ⟨str "/@" ++ (h ++ (str "/post/" ++ g)), rest, by simp [List.append_assoc], ?_⟩
    rw [threadsPattern]
    refine ⟨str "/@", h ++ (str "/post/" ++ g), rfl, rfl, ?_⟩
    refine ⟨h, str "/post/" ++ g, rfl, lang_plus_cls.mpr ⟨hne, hall⟩, ?_⟩
    refine ⟨str "/post/", g, rfl, rfl, ?_⟩
    exact ⟨g, [], by simp, lang_plus_cls.mpr ⟨gne, gall⟩, Or.inl rfl⟩

/-! ### Claim C3 -/

/-- C3 counterexample: the domain check is case-sensitive (`strings.Contains`
on the parsed host, which Go's `url.Parse` does not lowercase), so the
upper-case host `WWW.THREADS.NET` is rejected with `UntrustedDomain` even
though it case-insensitively contains `threads.net`; the lower-case sibling
passes. -/
theorem claim_C3_counterexample :
    normalizeURLparts ⟨str "https", str "WWW.THREADS.NET", str "/@a/post/b", []⟩ =
      .error .untrustedDomain ∧
    normalizeURLparts ⟨str "https", str "www.threads.net", str "/@a/post/b", []⟩ =
      .ok (str "https://www.threads.net/@a/post/b") ∧
    normalizeURL (str "https://WWW.THREADS.NET/@a/post/b") = .error .untrustedDomain := by
  refine ⟨by decide, by decide, by decide⟩

/-- C3 amended: the normalizer fails with `UntrustedDomain` exactly when the
host does not (case-sensitively) contain one of the six allow-set domains;
any host containing one of them, byte for byte, passes the domain check. -/
theorem claim_C3_domain_check (u : URLParts) :
    normalizeURLparts u = .error .untrustedDomain ↔
      ¬∃ d ∈ validDomains, goContains u.host d = true := by
  rw [normalizeURLparts]
  by_cases hd : validDomains.any (fun d => goContains u.host d) = true
  · have hex : ∃ d ∈ validDomains, goContains u.host d = true := by
      simpa [List.any_eq_true] using hd
    rw [hd]
    simp only [Bool.true_eq_false, if_false]
    constructor
    · intro h
      split at h
      · exact absurd h (by simp)
      · exact absurd h (by simp)
    · intro hn
      exact absurd hex hn
  · rw [Bool.not_eq_true] at hd
    rw [hd]
    rw [if_pos (by trivial)]
    constructor
    · intro _
      rintro ⟨d, hdm, hc⟩
      have := List.any_eq_false.mp hd d hdm
      rw [hc] at this
      exact absurd this (by simp)
    · intro _
      rfl

/-! ### Claim C2 -/

theorem takeWhile_dropWhile_append {f : Char → Bool} (h rest : Str)
    (hh : ∀ c ∈ h, f c = true) (hr : ∀ d, rest.head? = some d → f d = false) :
    (h ++ rest).takeWhile f = h ∧ (h ++ rest).dropWhile f = rest := by
  induction h with
  | nil =>
    cases rest with
    | nil => simp
    | cons d rs =>
      have := hr d rfl
      simp [List.takeWhile_cons, List.dropWhile_cons, this]
  | cons c cs ih =>
    have hc := hh c (by simp)
    obtain ⟨ih1, ih2⟩ := ih (fun x hx => hh x (by simp [hx]))
    rw [List.cons_append]
    rw [List.takeWhile_cons, List.dropWhile_cons]
    rw [hc]
    simp [ih1, ih2]

/-- C2 counterexample: the path regex has no end anchor, so
`/@a/post/b/c` — which is not of the exact `/@handle/post/id[/]` shape —
is accepted by the normalizer rather than rejected with
`MalformedPostPath`. -/
theorem claim_C2_counterexample :
    normalizeURLparts ⟨str "https", str "www.threads.net", str "/@a/post/b/c", []⟩ =
      .ok (str "https://www.threads.net/@a/post/b/c") ∧
    ¬∃ h g t, str "/@a/post/b/c" = str "/@" ++ h ++ str "/post/" ++ g ++ t ∧
      (t = [] ∨ t = str "/") ∧
      h ≠ [] ∧ (∀ c ∈ h, handleChar c = true) ∧
      g ≠ [] ∧ (∀ c ∈ g, postIdChar c = true) := by
  refine ⟨by decide, ?_⟩
  rintro ⟨h, g, t, heq, ht, -, hall, -, gall⟩
  rw [show str "/@a/post/b/c" = str "/@" ++ str "a/post/b/c" from rfl] at heq
  simp only [List.append_assoc] at heq
  have e1 : str "a/post/b/c" = h ++ (str "/post/" ++ (g ++ t)) :=
    List.append_cancel_left heq
  have hw := takeWhile_dropWhile_append (f := handleChar) h (str "/post/" ++ (g ++ t)) hall
    (fun d hd => by
      rw [show (str "/post/" ++ (g ++ t)).head? = some '/' from rfl] at hd
      cases hd
      decide)
  have hH : h = str "a" := by
    rw [← hw.1, ← e1]
    decide
  subst hH
  rw [show str "a/post/b/c" = str "a" ++ (str "/post/" ++ str "b/c") from rfl] at e1
  have e2 : str "/post/" ++ str "b/c" = str "/post/" ++ (g ++ t) :=
    List.append_cancel_left e1
  have e3 : str "b/c" = g ++ t := List.append_cancel_left e2
  have hw2 := takeWhile_dropWhile_append (f := postIdChar) g t gall
    (fun d hd => by
      rcases ht with rfl | rfl
      · simp at hd
      · rw [show (str "/").head? = some '/' from rfl] at hd
        cases hd
        decide)
  have hT : t = str "/c" := by
    rw [← hw2.2, ← e3]
    decide
  rcases ht with rfl | rfl
  · exact absurd hT (by decide)
  · exact absurd hT (by decide)

/-- C2 amended: with an allowed host, the normalizer fails with
`MalformedPostPath` exactly when the path does not begin with
`/@handle/post/id`; the check is anchored only at the start, so a path may
continue arbitrarily after the post id and still be accepted. -/
theorem claim_C2_path_check (u : URLParts)
    (hd : validDomains.any (fun d => goContains u.host d) = true) :
    normalizeURLparts u = .error .malformedPostPath ↔
      ¬∃ h g rest, u.path = str "/@" ++ h ++ str "/post/" ++ g ++ rest ∧
        h ≠ [] ∧ (∀ c ∈ h, handleChar c = true) ∧
        g ≠ [] ∧ (∀ c ∈ g, postIdChar c = true) := by
  rw [normalizeURLparts, hd]
  simp only [Bool.true_eq_false, if_false]
  rw [← matchStart_threadsPattern]
  by_cases hm : matchStart threadsPattern u.path = true
  · rw [hm]
    simp only [Bool.true_eq_false, if_false]
    constructor
    · intro h
      exact absurd h (by simp)
    · intro hn
      exact absurd (by trivial) hn
  · rw [Bool.not_eq_true] at hm
    rw [hm]
    rw [if_pos (by trivial)]
    constructor
    · intro _
      simp [hm]
    · intro _
      rfl

/-- Witness for C2 at a concrete allowed-host input with a malformed path. -/
theorem claim_C2_witness :
    ¬∃ h g rest, str "/notaposturl" = str "/@" ++ h ++ str "/post/" ++ g ++ rest ∧
      h ≠ [] ∧ (∀ c ∈ h, handleChar c = true) ∧
      g ≠ [] ∧ (∀ c ∈ g, postIdChar c = true) :=
  (claim_C2_path_check ⟨str "https", str "threads.net", str "/notaposturl", []⟩
    (by decide)).mp (by decide)

/-! ### Claim C6 -/

theorem splitAtChar_no {ch : Char} {s : Str} (h : ∀ c ∈ s, ¬(c = ch)) :
    splitAtChar ch s = (s, none) := by
  induction s with
  | nil => rfl
  | cons c rest ih =>
    rw [splitAtChar]
    rw [if_neg (h c (by simp))]
    rw [ih (fun x hx => h x (by simp [hx]))]

theorem percentDecode_id {s : Str} (h : ∀ c ∈ s, ¬(c = '%')) :
    percentDecode s = some s := by
  induction s with
  | nil => rfl
  | cons c rest ih =>
    have hc : ¬(c = '%') := h c (by simp)
    have ih' := ih (fun x hx => h x (by simp [hx]))
    rw [percentDecode.eq_def]
    simp only []
    rw [if_neg hc, ih']

theorem normalizeURL_eq_parts {s : Str} {u : URLParts} (h : parseURL s = some u) :
    normalizeURL s = normalizeURLparts u := by
  rw [normalizeURL.eq_def, h]

/-- Parsing the canonical output `https://www.threads.net` + path, for a
slash-initial path free of `%`, `?`, `#`. -/
theorem parseURL_canonical (pr : Str)
    (hq : ∀ c ∈ ('/' :: pr), ¬(c = '%') ∧ ¬(c = '?') ∧ ¬(c = '#')) :
    parseURL (str "https://www.threads.net" ++ ('/' :: pr)) =
      some ⟨str "https", str "www.threads.net", '/' :: pr, []⟩ := by
  have hbody : splitAtChar '#' (str "https://www.threads.net" ++ ('/' :: pr)) =
      (str "https://www.threads.net" ++ ('/' :: pr), none) := by
    apply splitAtChar_no
    intro c hc
    rcases List.mem_append.mp hc with hc | hc
    · intro he
      subst he
      revert hc
      decide
    · exact (hq c hc).2.2
  have hsub : splitAtSub (str "://") (str "https://www.threads.net" ++ ('/' :: pr)) =
      some (str "https", str "www.threads.net" ++ ('/' :: pr)) := rfl
  have htake : (str "www.threads.net" ++ ('/' :: pr)).takeWhile (fun c => !hostEnd c) =
      str "www.threads.net" := rfl
  have hdrop : (str "www.threads.net" ++ ('/' :: pr)).dropWhile (fun c => !hostEnd c) =
      '/' :: pr := rfl
  have hqsplit : splitAtChar '?' ('/' :: pr) = ('/' :: pr, none) :=
    splitAtChar_no (fun c hc => (hq c hc).2.1)
  have hdec : percentDecode ('/' :: pr) = some ('/' :: pr) :=
    percentDecode_id (fun c hc => (hq c hc).1)
  rw [parseURL]
  simp only [hbody, hsub, htake, hdrop, hqsplit, hdec]
  rfl

/-- C6 counterexample: a percent-encoded `?` in the input path survives into
the canonical output, where a second normalization pass parses it as a query
and strips it — normalization is not idempotent, and the first output does
carry a query string. -/
theorem claim_C6_counterexample :
    normalizeURL (str "https://threads.net/@a/post/b%3Fx") =
      .ok (str "https://www.threads.net/@a/post/b?x") ∧
    normalizeURL (str "https://www.threads.net/@a/post/b?x") =
      .ok (str "https://www.threads.net/@a/post/b") ∧
    str "https://www.threads.net/@a/post/b" ≠ str "https://www.threads.net/@a/post/b?x" ∧
    goContains (str "https://www.threads.net/@a/post/b?x") (str "?") = true := by
  refine ⟨by decide, by decide, by decide, by decide⟩

/-- C6 amended: for every input the normalizer accepts whose decoded path
contains none of `%`, `?`, `#`, normalizing the output returns the output
unchanged and the output carries no query string; the concrete scenario-A
input normalizes to its query-stripped form. -/
theorem claim_C6_idempotent (s : Str) (u : URLParts) (out : Str)
    (hp : parseURL s = some u)
    (hq : ∀ c ∈ u.path, ¬(c = '%') ∧ ¬(c = '?') ∧ ¬(c = '#'))
    (hn : normalizeURL s = .ok out) :
    (normalizeURL out = .ok out ∧ goContains out (str "?") = false) ∧
    normalizeURL (str "https://www.threads.net/@alice/post/Cabc123?hl=en") =
      .ok (str "https://www.threads.net/@alice/post/Cabc123") := by
  refine ⟨?_, by decide⟩
  rw [normalizeURL_eq_parts hp] at hn
  rw [normalizeURLparts] at hn
  by_cases hdom : validDomains.any (fun d => goContains u.host d) = false
  · rw [if_pos hdom] at hn
    exact absurd hn (by simp)
  · rw [if_neg hdom] at hn
    by_cases hpm : matchStart threadsPattern u.path = false
    · rw [if_pos hpm] at hn
      exact absurd hn (by simp)
    · rw [if_neg hpm] at hn
      have hpath : matchStart threadsPattern u.path = true := by
        cases hv : matchStart threadsPattern u.path
        · exact absurd hv hpm
        · rfl
      have hout : out = str "https://www.threads.net" ++ u.path := by
        cases hn
        rfl
      obtain ⟨h, g, rest, hdecomp, -, -, -, -⟩ := matchStart_threadsPattern.mp hpath
      obtain ⟨pr, hpr⟩ : ∃ pr, u.path = '/' :: pr := by
        refine ⟨'@' :: (h ++ (str "/post/" ++ (g ++ rest))), ?_⟩
        rw [hdecomp]
        simp only [List.append_assoc]
        rfl
      rw [hpr] at hout hq hpath
      have hcanon := parseURL_canonical pr hq
      constructor
      · rw [hout, normalizeURL_eq_parts hcanon, normalizeURLparts]
        dsimp only
        rw [if_neg (by decide)]
        rw [if_neg (by rw [hpath]; simp)]
      · rw [hout]
        cases hgc : goContains (str "https://www.threads.net" ++ ('/' :: pr)) (str "?")
        · rfl
        · exfalso
          obtain ⟨l, r, heq⟩ := goContains_iff.mp hgc
          have hmem : '?' ∈ str "https://www.threads.net" ++ ('/' :: pr) := by
            rw [← heq]
            simp [str]
          rcases List.mem_append.mp hmem with hc | hc
          · revert hc
            decide
          · exact (hq '?' hc).2.1 rfl

/-- Witness for C6 at a concrete already-canonical input. -/
theorem claim_C6_witness :
    (normalizeURL (str "https://www.threads.net/@w/post/Id5") =
        .ok (str "https://www.threads.net/@w/post/Id5") ∧
      goContains (str "https://www.threads.net/@w/post/Id5") (str "?") = false) ∧
    normalizeURL (str "https://www.threads.net/@alice/post/Cabc123?hl=en") =
      .ok (str "https://www.threads.net/@alice/post/Cabc123") :=
  claim_C6_idempotent (str "https://www.threads.net/@w/post/Id5")
    ⟨str "https", str "www.threads.net", str "/@w/post/Id5", []⟩
    (str "https://www.threads.net/@w/post/Id5")
    (by decide) (by decide) (by decide)

/-! ### The pattern tables of the source-markup strategy and the metadata
extractor (main.go lines 584-608, 649-656, 691-700) -/

/-- Concatenation of a pattern list. -/
def reCat : List RE → RE
  | [] => .lit []
  | [r] => r
  | r :: rs => .seq r (reCat rs)

/-- `\s*`. -/
def wsStar : RE := .starG (.cls spaceChar)

/-- `([^"]+)` as group 1. -/
def q1 : RE := .group 1 (rePlus (.cls notQuote))

/-- `([^"]+\.mp4[^"]*)` as group 1. -/
def qmp4 : RE :=
  .group 1 (reCat [rePlus (.cls notQuote), .lit (str ".mp4"), .starG (.cls notQuote)])

/-- `[^"'\s]*`. -/
def nqsStar : RE := .starG (.cls notQuoteSpace)

/-- `(jpg|jpeg|png|webp)` as group `n`. -/
def extAlt (n : Nat) : RE :=
  .group n (.alt (.lit (str "jpg"))
    (.alt (.lit (str "jpeg")) (.alt (.lit (str "png")) (.lit (str "webp")))))

/-- Loose `browser_native_hd_url":\s*"([^"]+)"` video-loop pattern
(main.go line 599). -/
def browserHdLoosePattern : RE :=
  reCat [.lit (str "browser_native_hd_url\":"), wsStar, .lit (str "\""), q1, .lit (str "\"")]

/-- The video-locator patterns of `extractFromSourceCode`, in priority order
(main.go lines 584-608). The three CDN-literal patterns have no capture
group, so (as in Go, where `len(match) > 1` fails) they can never yield a
URL. -/
def videoPatterns : List RE :=
  [reCat [.lit (str "video_versions\":"), wsStar, .lit (str "["), wsStar, .lit (str "\x7b"),
     wsStar, .lit (str "\"url\":"), wsStar, .lit (str "\""), q1, .lit (str "\"")],
   reCat [.lit (str "\"video_url\":"), wsStar, .lit (str "\""), q1, .lit (str "\"")],
   reCat [.lit (str "\"url\":"), wsStar, .lit (str "\""), qmp4, .lit (str "\"")],
   reCat [.lit (str "video_versions\""), .starG (.cls notCloseBrace), .lit (str "\"url\":"),
     wsStar, .lit (str "\""), qmp4, .lit (str "\"")],
   reCat [.lit (str "\"playback_url\":"), wsStar, .lit (str "\""), q1, .lit (str "\"")],
   reCat [.lit (str "https://"), nqsStar, .lit (str "video"), nqsStar, .lit (str "fbcdn.net"),
     nqsStar, .lit (str ".mp4"), nqsStar],
   reCat [.lit (str "https://"), nqsStar, .lit (str "scontent"), nqsStar, .lit (str ".mp4"),
     nqsStar],
   reCat [.lit (str "https://"), nqsStar, .lit (str "cdninstagram.com"), nqsStar,
     .lit (str ".mp4"), nqsStar],
   reCat [.lit (str "\"src\":"), wsStar, .lit (str "\""), qmp4, .lit (str "\"")],
   browserHdLoosePattern,
   reCat [.lit (str "browser_native_sd_url\":"), wsStar, .lit (str "\""), q1, .lit (str "\"")],
   reCat [.lit (str "\"video_dash_manifest\":"), wsStar, .lit (str "\""), q1, .lit (str "\"")],
   reCat [.lit (str "candidates\":"), wsStar, .lit (str "["), .starG (.cls notCloseBrace),
     .lit (str "\"url\":"), wsStar, .lit (str "\""), qmp4, .lit (str "\"")],
   reCat [.lit (str "video_resources\""), .starG (.cls notCloseBrace), .lit (str "\"src\":"),
     wsStar, .lit (str "\""), qmp4, .lit (str "\"")],
   reCat [.lit (str "data-video-url=\""), q1, .lit (str "\"")],
   reCat [.lit (str "data-src=\""), qmp4, .lit (str "\"")]]

/-- The image-locator patterns of `extractFromSourceCode` (main.go lines
649-656). In the last three, group 1 is the extension alternation, so the
"URL" Go reads from `matches[1]` is just `jpg` etc., which never validates. -/
def imagePatterns : List RE :=
  [reCat [.lit (str "\"display_url\":"), wsStar, .lit (str "\""), q1, .lit (str "\"")],
   reCat [.lit (str "\"image_url\":"), wsStar, .lit (str "\""), q1, .lit (str "\"")],
   reCat [.lit (str "\"url\":"), wsStar, .lit (str "\""),
     .group 1 (reCat [rePlus (.cls notQuote), .lit (str "."), extAlt 2,
       .starG (.cls notQuote)]),
     .lit (str "\"")],
   reCat [.lit (str "https://"), nqsStar, .lit (str "cdninstagram.com"), nqsStar,
     .lit (str "."), extAlt 1, nqsStar],
   reCat [.lit (str "https://"), nqsStar, .lit (str "fbcdn.net"), nqsStar, .lit (str "."),
     extAlt 1, nqsStar],
   reCat [.lit (str "https://"), nqsStar, .lit (str "scontent"), nqsStar, .lit (str "."),
     extAlt 1, nqsStar]]

/-- `"video_id":"?(\d+)"?`. -/
def videoIdPattern : RE :=
  reCat [.lit (str "\"video_id\":"), .optG (reChar '"'), .group 1 (rePlus (.cls digitChar)),
    .optG (reChar '"')]

/-- `<title>([^<]+)</title>`. -/
def titlePattern : RE :=
  reCat [.lit (str "<title>"), .group 1 (rePlus (.cls notLt)), .lit (str "</title>")]

/-- `"playable_duration_in_ms":(\d+)`. -/
def durationPattern : RE :=
  reCat [.lit (str "\"playable_duration_in_ms\":"), .group 1 (rePlus (.cls digitChar))]

/-- `"browser_native_hd_url":"([^"]+)"`. -/
def browserHdPattern : RE :=
  reCat [.lit (str "\"browser_native_hd_url\":\""), q1, .lit (str "\"")]

/-- `"browser_native_sd_url":"([^"]+)"`. -/
def browserSdPattern : RE :=
  reCat [.lit (str "\"browser_native_sd_url\":\""), q1, .lit (str "\"")]

/-- `"hd_src":"([^"]+)"`. -/
def hdSrcPattern : RE := reCat [.lit (str "\"hd_src\":\""), q1, .lit (str "\"")]

/-- `"sd_src":"([^"]+)"`. -/
def sdSrcPattern : RE := reCat [.lit (str "\"sd_src\":\""), q1, .lit (str "\"")]

/-- `"playable_url":"([^"]+)"`. -/
def playableUrlPattern : RE := reCat [.lit (str "\"playable_url\":\""), q1, .lit (str "\"")]

/-! ### Metadata extractor (main.go `extractVideoMetadata`, lines 684-768) -/

/-- First capture of the video-id pattern. -/
def extractedVideoID (html : Str) : Option Str := findGroup1 videoIdPattern html

/-- First title capture, trimmed and with the Facebook site-name suffixes
removed (main.go lines 710-717). -/
def extractedTitle (html : Str) : Option Str :=
  (findGroup1 titlePattern html).map (fun t =>
    goReplaceAll (goReplaceAll (goTrimSpace t) (str " | Facebook") [])
      (str " - Facebook") [])

/-- First duration capture parsed as an int64 millisecond count. -/
def extractedDurationMs (html : Str) : Option Nat :=
  (findGroup1 durationPattern html).bind goParseInt64

/-- The quality-tier URL map: the five fixed fields, each independently
optional, captured value unescaped (main.go lines 728-766). -/
def extractVideoUrls (html : Str) : List (Str × Str) :=
  (match findGroup1 browserHdPattern html with
   | some c => [(str "browser_hd", unescapeURL c)]
   | none => []) ++
  (match findGroup1 browserSdPattern html with
   | some c => [(str "browser_sd", unescapeURL c)]
   | none => []) ++
  (match findGroup1 hdSrcPattern html with
   | some c => [(str "hd_src", unescapeURL c)]
   | none => []) ++
  (match findGroup1 sdSrcPattern html with
   | some c => [(str "sd_src", unescapeURL c)]
   | none => []) ++
  (match findGroup1 playableUrlPattern html with
   | some c => [(str "playable_url", unescapeURL c)]
   | none => [])

/-- Translation of `extractVideoMetadata`: (videoID, title, duration in
seconds, quality-tier URL map, auxiliary metadata map). -/
def extractVideoMetadata (html : Str) :
    Str × Str × Int × List (Str × Str) × List (Str × Str) :=
  let vid := extractedVideoID html
  let title := extractedTitle html
  let dur := extractedDurationMs html
  let metadata :=
    (match vid with | some v => [(str "video_id", v)] | none => []) ++
    (match title with | some t => [(str "title", t)] | none => []) ++
    (match dur with
     | some ms => [(str "duration", natToStr (ms / 1000) ++ str " seconds")]
     | none => [])
  (vid.getD [], title.getD [],
   (match dur with | some ms => Int.ofNat (ms / 1000) | none => 0),
   extractVideoUrls html, metadata)

/-! ### Source-markup strategy (main.go `extractFromSourceCode`,
lines 569-681) -/

/-- Inner loop over one pattern's matches: first capture whose unescaped
value passes the video predicate (matches without a group 1 are skipped, as
Go's `len(match) > 1` check does). -/
def firstValidVideoCapture : List (Str × Caps) → Option Str
  | [] => none
  | (_, caps) :: rest =>
    match capLookup 1 caps with
    | some c =>
      if isValidVideoURL (unescapeURL c) = true then some (unescapeURL c)
      else firstValidVideoCapture rest
    | none => firstValidVideoCapture rest

/-- Outer loop over the video patterns in priority order. -/
def findVideoURL (html : Str) : List RE → Option Str
  | [] => none
  | p :: ps =>
    match firstValidVideoCapture (findAll p html) with
    | some u => some u
    | none => findVideoURL html ps

/-- The image-pattern loop: only the first match of each pattern is taken
(`FindStringSubmatch`), unescaped and double-checked. -/
def findImageResult (html : Str) : List RE → Option ExtractResponse
  | [] => none
  | p :: ps =>
    match findGroup1 p html with
    | some c =>
      if isValidImageURL (unescapeURL c) = true ∧ isValidVideoURL (unescapeURL c) = false then
        some { mediaURL := unescapeURL c, mediaType := str "image", success := true }
      else findImageResult html ps
    | none => findImageResult html ps

/-- Translation of `extractFromSourceCode`: video patterns always run first,
regardless of the page type; image patterns only when the page type is
"image". -/
def extractFromSourceCode (html : Str) (pageType : Str) : Option ExtractResponse :=
  match findVideoURL html videoPatterns with
  | some url =>
    let m := extractVideoMetadata html
    some { mediaURL := url, mediaType := str "video", success := true,
           videoID := m.1, title := m.2.1, duration := m.2.2.1,
           videoUrls := m.2.2.2.1, metadata := m.2.2.2.2 }
  | none =>
    if pageType = str "image" then findImageResult html imagePatterns
    else none

/-! ### Claim C10 -/

theorem mem_optEntry {k v key : Str} {o : Option Str}
    (h : (k, v) ∈ (match o with | some c => [(key, unescapeURL c)] | none => ([] : List (Str × Str)))) :
    k = key ∧ ∃ c, o = some c ∧ v = unescapeURL c := by
  cases o with
  | none => simp at h
  | some c =>
    simp at h
    exact ⟨h.1, c, rfl, h.2⟩

/-- C10: every entry of the quality-tier map produced by the metadata
extractor has one of the five fixed keys (never a dash-manifest key), and is
bound to the unescaped first capture of that key's fixed pattern. -/
theorem claim_C10_quality_map (html k v : Str)
    (hmem : (k, v) ∈ (extractVideoMetadata html).2.2.2.1) :
    (k = str "browser_hd" ∧ ∃ c, findGroup1 browserHdPattern html = some c ∧ v = unescapeURL c) ∨
    (k = str "browser_sd" ∧ ∃ c, findGroup1 browserSdPattern html = some c ∧ v = unescapeURL c) ∨
    (k = str "hd_src" ∧ ∃ c, findGroup1 hdSrcPattern html = some c ∧ v = unescapeURL c) ∨
    (k = str "sd_src" ∧ ∃ c, findGroup1 sdSrcPattern html = some c ∧ v = unescapeURL c) ∨
    (k = str "playable_url" ∧ ∃ c, findGroup1 playableUrlPattern html = some c ∧ v = unescapeURL c) := by
  have hmem' : (k, v) ∈ extractVideoUrls html := by
    simpa [extractVideoMetadata] using hmem
  rw [extractVideoUrls] at hmem'
  simp only [List.mem_append] at hmem'
  rcases hmem' with ((((h | h) | h) | h) | h)
  · exact Or.inl (mem_optEntry h)
  · exact Or.inr (Or.inl (mem_optEntry h))
  · exact Or.inr (Or.inr (Or.inl (mem_optEntry h)))
  · exact Or.inr (Or.inr (Or.inr (Or.inl (mem_optEntry h))))
  · exact Or.inr (Or.inr (Or.inr (Or.inr (mem_optEntry h))))

/-- Witness for C10 on markup carrying a browser-native HD field. -/
theorem claim_C10_witness :
    (str "browser_hd" = str "browser_hd" ∧
      ∃ c, findGroup1 browserHdPattern
          (str "\"browser_native_hd_url\":\"https:\\/\\/v.fb\\/a.mp4\"") = some c ∧
        str "https://v.fb/a.mp4" = unescapeURL c) ∨
    (str "browser_hd" = str "browser_sd" ∧
      ∃ c, findGroup1 browserSdPattern
          (str "\"browser_native_hd_url\":\"https:\\/\\/v.fb\\/a.mp4\"") = some c ∧
        str "https://v.fb/a.mp4" = unescapeURL c) ∨
    (str "browser_hd" = str "hd_src" ∧
      ∃ c, findGroup1 hdSrcPattern
          (str "\"browser_native_hd_url\":\"https:\\/\\/v.fb\\/a.mp4\"") = some c ∧
        str "https://v.fb/a.mp4" = unescapeURL c) ∨
    (str "browser_hd" = str "sd_src" ∧
      ∃ c, findGroup1 sdSrcPattern
          (str "\"browser_native_hd_url\":\"https:\\/\\/v.fb\\/a.mp4\"") = some c ∧
        str "https://v.fb/a.mp4" = unescapeURL c) ∨
    (str "browser_hd" = str "playable_url" ∧
      ∃ c, findGroup1 playableUrlPattern
          (str "\"browser_native_hd_url\":\"https:\\/\\/v.fb\\/a.mp4\"") = some c ∧
        str "https://v.fb/a.mp4" = unescapeURL c) :=
  claim_C10_quality_map (str "\"browser_native_hd_url\":\"https:\\/\\/v.fb\\/a.mp4\"")
    (str "browser_hd") (str "https://v.fb/a.mp4") (by decide)

/-! ### Rendered-page model

A rendered page is modelled as the document-order list of its elements (tag,
attributes, nested elements, and the result of evaluating
`this.currentSrc || this.src` on it, `none` when evaluation fails) together
with its serialized markup. rod's `Page.Elements` is selector filtering in
document order, `Page.Element` its first result (an error — modelled as
`none`/`[]` — when nothing matches), and `Element.Attribute` an optional
attribute lookup. -/

inductive Elem where
  | mk : Str → List (Str × Str) → List Elem → Option Str → Elem

def Elem.tag : Elem → Str
  | .mk t _ _ _ => t

def Elem.attrs : Elem → List (Str × Str)
  | .mk _ a _ _ => a

def Elem.children : Elem → List Elem
  | .mk _ _ ch _ => ch

def Elem.evalCurrentSrc : Elem → Option Str
  | .mk _ _ _ e => e

/-- rod `el.Attribute(name)`: `nil` when the attribute is absent. -/
def Elem.attr (e : Elem) (name : Str) : Option Str := lookupStr name e.attrs

structure Page where
  elems : List Elem
  html : Str

/-- The CSS attribute conditions used by main.go's selectors. -/
inductive AttrCond where
  | eq : Str → Str → AttrCond
  | containsA : Str → Str → AttrCond
  | present : Str → AttrCond

/-- A CSS selector of the restricted form `tag[conds]` used by main.go. -/
structure Sel where
  tag : Option Str
  conds : List AttrCond

def condHolds (e : Elem) : AttrCond → Bool
  | .eq n v => match e.attr n with | some w => w = v | none => false
  | .containsA n v => match e.attr n with | some w => goContains w v | none => false
  | .present n => (e.attr n).isSome

def selMatches (e : Elem) (s : Sel) : Bool :=
  (match s.tag with | some t => e.tag = t | none => true) && s.conds.all (condHolds e)

def Page.elements (p : Page) (s : Sel) : List Elem :=
  p.elems.filter (fun e => selMatches e s)

def Page.element (p : Page) (s : Sel) : Option Elem := (p.elements s).head?

def Elem.childElements (e : Elem) (s : Sel) : List Elem :=
  e.children.filter (fun c => selMatches c s)

def selVideo : Sel := ⟨some (str "video"), []⟩
def selVideoSrc : Sel := ⟨some (str "video"), [.present (str "src")]⟩
def selTestIdVideo : Sel := ⟨none, [.containsA (str "data-testid") (str "video")]⟩
def selVideoAutoplay : Sel := ⟨some (str "video"), [.present (str "autoplay")]⟩
def selDataVideoUrl : Sel := ⟨none, [.present (str "data-video-url")]⟩
def selImg : Sel := ⟨some (str "img"), []⟩
def selSource : Sel := ⟨some (str "source"), []⟩

/-- `meta[attrName="value"]`. -/
def metaSel (attrName value : String) : Sel :=
  ⟨some (str "meta"), [.eq (str attrName) (str value)]⟩

/-! ### DOM-element strategy (main.go `extractFromDOMElements`,
lines 449-566) -/

/-- First validated `src` among a video's nested `source` elements. -/
def firstValidSourceChild : List Elem → Option Str
  | [] => none
  | s :: rest =>
    match s.attr (str "src") with
    | some src =>
      if src ≠ [] ∧ isValidVideoURL src = true then some src
      else firstValidSourceChild rest
    | none => firstValidSourceChild rest

/-- Probes of one video element, in source order: `src` attribute,
`data-video-url` attribute, nested `source` elements, live `currentSrc`. -/
def videoElemURL (e : Elem) : Option Str :=
  match
    (match e.attr (str "src") with
     | some src => if src ≠ [] ∧ isValidVideoURL src = true then some src else none
     | none => none) with
  | some u => some u
  | none =>
    match
      (match e.attr (str "data-video-url") with
       | some d => if d ≠ [] ∧ isValidVideoURL d = true then some d else none
       | none => none) with
    | some u => some u
    | none =>
      match firstValidSourceChild (e.childElements selSource) with
      | some u => some u
      | none =>
        match e.evalCurrentSrc with
        | some s => if s ≠ [] ∧ isValidVideoURL s = true then some s else none
        | none => none

def firstVideoFromElems : List Elem → Option Str
  | [] => none
  | e :: rest =>
    match videoElemURL e with
    | some u => some u
    | none => firstVideoFromElems rest

/-- The video selectors, most common first (main.go lines 457-463). -/
def videoSelectors : List Sel :=
  [selVideoSrc, selVideo, selTestIdVideo, selVideoAutoplay, selDataVideoUrl]

def domVideoScan (page : Page) : List Sel → Option Str
  | [] => none
  | sel :: rest =>
    match firstVideoFromElems (page.elements sel) with
    | some u => some u
    | none => domVideoScan page rest

/-- Translation of `extractFromDOMElements`. -/
def extractFromDOMElements (page : Page) (pageType : Str) : Option ExtractResponse :=
  if pageType = str "video" then
    match domVideoScan page videoSelectors with
    | some u => some { mediaURL := u, mediaType := str "video", success := true }
    | none => none
  else
    domImageResult ((page.elements selImg).map (fun e => e.attr (str "src")))

/-! ### Content-type classifier (main.go `analyzePageContent`,
lines 233-386) -/

/-- The meta-tag video indicator selectors (main.go lines 238-245). -/
def videoIndicatorSelectors : List Sel :=
  [metaSel "property" "og:video:url",
   metaSel "property" "og:video",
   metaSel "property" "og:video:secure_url",
   metaSel "name" "twitter:player:stream",
   ⟨some (str "meta"), [.eq (str "property") (str "og:type"), .eq (str "content") (str "video")]⟩,
   ⟨some (str "meta"),
    [.eq (str "property") (str "og:type"), .eq (str "content") (str "video.other")]⟩]

def metaIndicatesVideo (page : Page) : List Sel → Bool
  | [] => false
  | sel :: rest =>
    match page.element sel with
    | some meta =>
      match meta.attr (str "content") with
      | some content =>
        if content ≠ [] ∧ (goContains content (str "video") ||
            goContains content (str ".mp4")) = true then true
        else metaIndicatesVideo page rest
      | none => metaIndicatesVideo page rest
    | none => metaIndicatesVideo page rest

/-- Video-element signals checked by the classifier: `src`, `data-src`,
nested sources (main.go lines 260-293). -/
def videoElemIndicates (e : Elem) : Bool :=
  (match e.attr (str "src") with
   | some src => !src.isEmpty && isValidVideoURL src
   | none => false) ||
  (match e.attr (str "data-src") with
   | some d => !d.isEmpty && isValidVideoURL d
   | none => false) ||
  (e.childElements selSource).any (fun s =>
    match s.attr (str "src") with
    | some src => !src.isEmpty && isValidVideoURL src
    | none => false)

/-- The embedded-state video indicator patterns (main.go lines 298-313). -/
def videoIndicatorPatterns : List RE :=
  [.lit (str "\"__typename\":\"Video\""),
   .lit (str "\"__typename\":\"XDTGraphVideo\""),
   .lit (str "\"is_video\":true"),
   .lit (str "\"media_type\":2"),
   .lit (str "\"media_type\":\"2\""),
   .lit (str "\"product_type\":\"clips\""),
   .lit (str "\"product_type\":\"igtv\""),
   .lit (str "\"video_url\":\""),
   reCat [.lit (str "\"video_versions\":"), wsStar, .lit (str "[")],
   .lit (str "\"video_dash_manifest\":\""),
   .lit (str "\"video_duration\":"),
   .lit (str "\"has_audio\":"),
   reCat [.lit (str "\"original_width\":"), .starG (.cls dotChar), .lit (str "\"original_height\":")],
   .lit (str "\"playback_duration_secs\":")]

/-- The classifier's HTML video-URL patterns (main.go lines 330-339);
`.*?` in the third is a lazy star. -/
def analyzeVideoURLPatterns : List RE :=
  [reCat [.lit (str "\"video_url\":"), wsStar, .lit (str "\""), q1, .lit (str "\"")],
   reCat [.lit (str "\"url\":"), wsStar, .lit (str "\""), qmp4, .lit (str "\"")],
   reCat [.lit (str "video_versions\":"), wsStar, .lit (str "["), wsStar, .lit (str "\x7b"),
     wsStar, .lit (str "\"url\":"), wsStar, .lit (str "\""), q1, .lit (str "\"")],
   reCat [.lit (str "video_versions\""), .starL (.cls dotChar), .lit (str "\"url\":\""), qmp4,
     .lit (str "\"")],
   reCat [.lit (str "\"src\":"), wsStar, .lit (str "\""), qmp4, .lit (str "\"")],
   reCat [.lit (str "\"video_dash_manifest\":"), wsStar, .lit (str "\""), q1, .lit (str "\"")],
   browserHdLoosePattern,
   reCat [.lit (str "browser_native_sd_url\":"), wsStar, .lit (str "\""), q1, .lit (str "\"")]]

def htmlIndicatesVideo (html : Str) : Bool :=
  videoIndicatorPatterns.any (fun p => reMatchString p html)

/-- The classifier's video-URL scan: first capture of each pattern, checked
(without unescaping) against the video predicate. -/
def htmlVideoURLFound (html : Str) : Bool :=
  analyzeVideoURLPatterns.any (fun p =>
    match findGroup1 p html with
    | some u => isValidVideoURL u
    | none => false)

def ogImageIndicates (page : Page) : Bool :=
  match page.element (metaSel "property" "og:image") with
  | some meta =>
    match meta.attr (str "content") with
    | some content =>
      !content.isEmpty &&
      (goContains content (str ".jpg") || goContains content (str ".jpeg") ||
       goContains content (str ".png") || goContains content (str ".webp"))
    | none => false
  | none => false

def contentImageCount (page : Page) : Nat :=
  ((page.elements selImg).filter (fun e =>
    match e.attr (str "src") with
    | some src =>
      !src.isEmpty &&
      (goContains src (str "cdninstagram.com") || goContains src (str "fbcdn.net") ||
       goContains src (str "scontent")) &&
      (goContains src (str ".jpg") || goContains src (str ".jpeg") ||
       goContains src (str ".png") || goContains src (str ".webp"))
    | none => false)).length

/-- Translation of `analyzePageContent`: best-guess content-type label,
defaulting to "image". -/
def analyzePageContent (page : Page) : Str :=
  if metaIndicatesVideo page videoIndicatorSelectors then str "video"
  else if (page.elements selVideo).any videoElemIndicates then str "video"
  else if htmlIndicatesVideo page.html then str "video"
  else if htmlVideoURLFound page.html then str "video"
  else if ogImageIndicates page then str "image"
  else if contentImageCount page > 0 then str "image"
  else str "image"

/-! ### The wired strategy chain (main.go `extractMediaURL`,
lines 214-229) -/

/-- The strategy chain as wired in `extractMediaURL`: DOM strategy then
source-markup strategy, both invoked with the literal page type "video";
`analyzePageContent` is never consulted. -/
def extractChain (page : Page) : Option ExtractResponse :=
  match extractFromDOMElements page (str "video") with
  | some r => some r
  | none => extractFromSourceCode page.html (str "video")

/-- The chain as it would run with an arbitrary content-type label. -/
def chainWith (page : Page) (t : Str) : Option ExtractResponse :=
  match extractFromDOMElements page t with
  | some r => some r
  | none => extractFromSourceCode page.html t

/-! ### Claim C1 -/

/-- An `img` element carrying only a `src` attribute. -/
def imgElem (src : Str) : Elem := .mk (str "img") [(str "src", src)] [] none

/-- A page whose only media candidate is a high-quality content image. -/
def contentImagePage : Page :=
  ⟨[imgElem (str "https://scontent.x/photo_1080x1080.jpg")],
   str "<img src=\"https://scontent.x/photo_1080x1080.jpg\">"⟩

/-- A page whose only media candidate is a profile image from the trusted
CDN. -/
def profileImagePage : Page :=
  ⟨[imgElem (str "https://scontent.x/profile_a.jpg")],
   str "<img src=\"https://scontent.x/profile_a.jpg\">"⟩

/-- C1 counterexample: the wired chain does not run with the classifier's
label. On a page with one valid content image the classifier says "image"
and the chain run with that label returns the image, but the wired chain
(which always passes "video") returns nothing. -/
theorem claim_C1_counterexample :
    analyzePageContent contentImagePage = str "image" ∧
    (chainWith contentImagePage (analyzePageContent contentImagePage)).isSome = true ∧
    extractChain contentImagePage = none ∧
    chainWith contentImagePage (analyzePageContent contentImagePage) ≠
      extractChain contentImagePage := by
  refine ⟨by decide, by decide, by decide, by decide⟩

/-- C1 amended: the wired extraction path always runs the strategy chain
with the fixed label "video", never consulting the classifier; on the page
whose only candidate is a trusted-CDN img with "profile" in its src, the
classifier would label it image, and the chain returns no result rather
than selecting that URL. -/
theorem claim_C1_chain_label :
    (∀ page : Page, extractChain page = chainWith page (str "video")) ∧
    analyzePageContent profileImagePage = str "image" ∧
    extractChain profileImagePage = none ∧
    chainWith profileImagePage (str "image") = none := by
  refine ⟨fun page => rfl, by decide, by decide, by decide⟩

/-! ### Claim C5 -/

theorem lookupStr_cons {k k' v : Str} {rest : List (Str × Str)} :
    lookupStr k ((k', v) :: rest) = if k' = k then some v else lookupStr k rest := rfl

theorem firstValidVideoCapture_none {l : List (Str × Caps)}
    (h : firstValidVideoCapture l = none) :
    l.any (fun m => match capLookup 1 m.2 with
      | some cc => isValidVideoURL (unescapeURL cc)
      | none => false) = false := by
  induction l with
  | nil => rfl
  | cons m rest ih =>
    obtain ⟨full, caps⟩ := m
    rw [firstValidVideoCapture] at h
    rw [List.any_cons]
    dsimp only
    cases hc : capLookup 1 caps with
    | none =>
      rw [hc] at h
      dsimp only at h ⊢
      rw [ih h]
      rfl
    | some cc =>
      rw [hc] at h
      dsimp only at h ⊢
      by_cases hv : isValidVideoURL (unescapeURL cc) = true
      · rw [if_pos hv] at h
        exact absurd h (by simp)
      · rw [if_neg hv] at h
        rw [Bool.not_eq_true] at hv
        rw [hv, ih h]
        rfl

theorem findVideoURL_none {html : Str} {ps : List RE} (h : findVideoURL html ps = none) :
    ∀ p ∈ ps, firstValidVideoCapture (findAll p html) = none := by
  induction ps with
  | nil => simp
  | cons p rest ih =>
    rw [findVideoURL] at h
    cases hf : firstValidVideoCapture (findAll p html) with
    | some u =>
      rw [hf] at h
      exact absurd h (by simp)
    | none =>
      rw [hf] at h
      intro q hq
      rcases List.mem_cons.mp hq with rfl | hq
      · exact hf
      · exact ih h q hq

/-- C5: on a page where no DOM video element matched, whose markup's
browser-native-HD field (as located by the extractor's own loose pattern)
captures a valid video URL, and whose first metadata captures are the HD URL
`c` and the duration `30000`, the source-markup strategy completes the chain
with a video result of duration 30 (= 30000 ms integer-divided by 1000)
whose quality map binds "browser_hd" to the unescaped capture. -/
theorem claim_C5_scenario_D (page : Page) (c : Str)
    (hdom : extractFromDOMElements page (str "video") = none)
    (hfound : (findAll browserHdLoosePattern page.html).any (fun m =>
      match capLookup 1 m.2 with
      | some cc => isValidVideoURL (unescapeURL cc)
      | none => false) = true)
    (hhd : findGroup1 browserHdPattern page.html = some c)
    (hdur : findGroup1 durationPattern page.html = some (str "30000")) :
    ∃ r, extractChain page = some r ∧ r.mediaType = str "video" ∧ r.duration = 30 ∧
      lookupStr (str "browser_hd") r.videoUrls = some (unescapeURL c) := by
  cases hv : findVideoURL page.html videoPatterns with
  | none =>
    exfalso
    have hmem : browserHdLoosePattern ∈ videoPatterns := by
      simp [videoPatterns]
    have := firstValidVideoCapture_none (findVideoURL_none hv browserHdLoosePattern hmem)
    rw [hfound] at this
    exact absurd this (by simp)
  | some u =>
    refine ⟨{ mediaURL := u, mediaType := str "video", success := true,
              videoID := (extractVideoMetadata page.html).1,
              title := (extractVideoMetadata page.html).2.1,
              duration := (extractVideoMetadata page.html).2.2.1,
              videoUrls := (extractVideoMetadata page.html).2.2.2.1,
              metadata := (extractVideoMetadata page.html).2.2.2.2 }, ?_, rfl, ?_, ?_⟩
    · rw [extractChain.eq_def, hdom]
      dsimp only
      rw [extractFromSourceCode.eq_def, hv]
    · show (extractVideoMetadata page.html).2.2.1 = 30
      simp only [extractVideoMetadata, extractedDurationMs, hdur, Option.some_bind,
        show goParseInt64 (str "30000") = some 30000 from by decide]
      decide
    · show lookupStr (str "browser_hd") (extractVideoMetadata page.html).2.2.2.1 =
        some (unescapeURL c)
      simp only [extractVideoMetadata]
      rw [extractVideoUrls, hhd]
      simp only [List.singleton_append, List.cons_append, List.append_assoc]
      rw [lookupStr_cons, if_pos rfl]

/-- The concrete scenario-D page: empty DOM, markup with escaped HD URL and
a 30000 ms duration. -/
def scenarioDPage : Page :=
  ⟨[], str "\"browser_native_hd_url\":\"https:\\/\\/v.fbcdn.net\\/hd.mp4\",\"playable_duration_in_ms\":30000"⟩

/-- Witness for C5 on the concrete scenario-D page. -/
theorem claim_C5_witness :
    ∃ r, extractChain scenarioDPage = some r ∧ r.mediaType = str "video" ∧
      r.duration = 30 ∧
      lookupStr (str "browser_hd") r.videoUrls =
        some (unescapeURL (str "https:\\/\\/v.fbcdn.net\\/hd.mp4")) :=
  claim_C5_scenario_D scenarioDPage (str "https:\\/\\/v.fbcdn.net\\/hd.mp4")
    (by decide) (by decide) (by decide) (by decide)

/-- Witness for C1: the chain equation instantiated at the profile page. -/
theorem claim_C1_witness :
    extractChain profileImagePage = chainWith profileImagePage (str "video") :=
  claim_C1_chain_label.1 profileImagePage

/-- Witness for C3: the domain-check characterization instantiated at an
untrusted host. -/
theorem claim_C3_witness :
    normalizeURLparts ⟨str "https", str "example.com", str "/@a/post/b", []⟩ =
        .error .untrustedDomain ↔
      ¬∃ d ∈ validDomains,
        goContains (⟨str "https", str "example.com", str "/@a/post/b", []⟩ : URLParts).host d =
          true :=
  claim_C3_domain_check ⟨str "https", str "example.com", str "/@a/post/b", []⟩

end ThreadsServer
